import Mathlib

/-!
Shallow embedding of the `fsm` crate (src/fsm/src/lib.rs together with the
code generated by the `State` derive in src/derive/src/lib.rs).

A `#[derive(State)]` enum with `N` unit variants is, through the generated
`From<T> for u8` / `TryFrom<u8>` pair, in bijection with the indices
`0, 1, …, N-1`; the generated `const MAX : u8` is `N`.  We therefore embed a
state value as its index, a `Nat`, and carry `N` (the value of `MAX`)
explicitly.  All `u8` arithmetic performed by the crate on in-range values
(`(t + 1) % MAX`, `(if t == 0 { MAX } else { t }) - 1`, `MAX - 1`) stays
below `2 * MAX ≤ 2^9`, so plain `Nat` arithmetic with truncated subtraction
is exact for it; a place where Rust would panic (a failed `.ok().unwrap()`,
or `% 0`) is modelled by `Option.none`.
-/

namespace Fsm

/-- The generated `TryFrom<u8>`: index `d` maps to the variant of index `d`
when `d < N`, and to `Err(())` (here `none`) otherwise. -/
def tryFrom (N d : Nat) : Option Nat :=
  if d < N then some d else none

/-- The generated `From<T> for u8`: a state converts to its own index. -/
def intoU8 (s : Nat) : Nat := s

/-- `State::start()`: `Self::try_from(0).ok().unwrap()`; `none` models the
panic of `unwrap`. -/
def startState (N : Nat) : Option Nat := tryFrom N 0

/-- `State::end()`: `Self::try_from(Self::MAX - 1).ok().unwrap()`. -/
def endState (N : Nat) : Option Nat := tryFrom N (N - 1)

/-- `State::len()`: `Self::MAX as usize`. -/
def len (N : Nat) : Nat := N

/-- `State::next(&mut self) -> Self`: computes `(t + 1) % MAX`, replaces the
cursor with the state of that index and returns the prior state.  The result
is `(returned prior state, new cursor value)`; `none` models the panic of the
`unwrap` (or of `% 0`). -/
def next (N s : Nat) : Option (Nat × Nat) :=
  (tryFrom N ((intoU8 s + 1) % N)).map (fun s2 => (s, s2))

/-- `State::previous(&mut self) -> Self`: computes
`(if t == 0 { MAX } else { t }) - 1`, replaces the cursor with the state of
that index and returns the prior state. -/
def previous (N s : Nat) : Option (Nat × Nat) :=
  (tryFrom N ((if intoU8 s = 0 then N else intoU8 s) - 1)).map (fun s2 => (s, s2))

/-- `State::goto(&mut self, other: Self) -> Self`: `mem::replace(self, other)` —
returns `(returned prior state, new cursor value)`; total, no lookup. -/
def goto (s other : Nat) : Nat × Nat := (s, other)

/-- The `StateIter<T>` struct: current item, last position, mode flag and
completion flag. -/
structure StateIter where
  item : Nat
  pos : Nat
  infinite : Bool
  done : Bool
deriving Repr, DecidableEq

/-- `State::into_iter(self)`: the infinite iterator starting at `self`. -/
def into_iter (s : Nat) : StateIter :=
  { item := s, pos := intoU8 s, infinite := true, done := false }

/-- `State::into_iter_once(self)`: the bounded iterator starting at `self`. -/
def into_iter_once (s : Nat) : StateIter :=
  { item := s, pos := intoU8 s, infinite := false, done := false }

/-- The statement `if !self.infinite && self.item == T::end() { self.done = true; }`
of `Iterator::next`: returns the value of the `done` flag after it, `none`
modelling a panic inside `T::end()`.  Rust's `&&` short-circuits, so `end()`
is only evaluated in bounded mode. -/
def flagFwd (N : Nat) (it : StateIter) : Option Bool :=
  if !it.infinite then
    match endState N with
    | some e => some (if it.item = e then true else it.done)
    | none => none
  else some it.done

/-- `Iterator::next` for `StateIter<T>`: returns the yielded `Option<T>`
together with the updated iterator.  The outer `none` models a panic inside
the body (`T::end()` or `State::next` failing their `unwrap`).  Mirrors the
source line by line: early return on `done`; the completion test `flagFwd`;
then `item.next()` advances the item, and the *returned previous state* is
stored into `pos` and yielded. -/
def step (N : Nat) (it : StateIter) : Option (Option Nat × StateIter) :=
  if it.done then some (none, it)
  else
    match flagFwd N it with
    | none => none
    | some done1 =>
      match next N it.item with
      | none => none
      | some (prev, item1) =>
          some (some prev,
            { item := item1, pos := intoU8 prev, infinite := it.infinite, done := done1 })

/-- `StateIter::size_hint`: `(self.pos, Some(T::MAX as usize))`. -/
def size_hint (N : Nat) (it : StateIter) : Nat × Option Nat :=
  (it.pos, some N)

/-- The completion test of `next_back`:
`if !self.infinite && self.item == T::start() { self.done = true; }`. -/
def flagBwd (N : Nat) (it : StateIter) : Option Bool :=
  if !it.infinite then
    match startState N with
    | some e => some (if it.item = e then true else it.done)
    | none => none
  else some it.done

/-- `DoubleEndedIterator::next_back` for `StateIter<T>`: symmetric to `step`,
testing against `T::start()` and advancing with `State::previous`. -/
def stepBack (N : Nat) (it : StateIter) : Option (Option Nat × StateIter) :=
  if it.done then some (none, it)
  else
    match flagBwd N it with
    | none => none
    | some done1 =>
      match previous N it.item with
      | none => none
      | some (prev, item1) =>
          some (some prev,
            { item := item1, pos := intoU8 prev, infinite := it.infinite, done := done1 })

/-- Drive `Iterator::next` up to `fuel` times, collecting the yielded
elements in order and stopping at the first `None` yield (as a `for` loop or
`collect` would); also returns the final iterator.  The outer `none`
propagates a modelled panic. -/
def collectFwd (N : Nat) : Nat → StateIter → Option (List Nat × StateIter)
  | 0, it => some ([], it)
  | fuel + 1, it =>
    match step N it with
    | none => none
    | some (none, it1) => some ([], it1)
    | some (some x, it1) =>
      match collectFwd N fuel it1 with
      | none => none
      | some (xs, it2) => some (x :: xs, it2)

/-- Drive `next_back` up to `fuel` times, collecting the yielded elements
(the behaviour of `.rev()` followed by a forward drain). -/
def collectBwd (N : Nat) : Nat → StateIter → Option (List Nat × StateIter)
  | 0, it => some ([], it)
  | fuel + 1, it =>
    match stepBack N it with
    | none => none
    | some (none, it1) => some ([], it1)
    | some (some x, it1) =>
      match collectBwd N fuel it1 with
      | none => none
      | some (xs, it2) => some (x :: xs, it2)

/-- Apply `State::next` to a cursor `k` times (discarding the returned prior
states), propagating a modelled panic. -/
def iterateNext (N : Nat) : Nat → Nat → Option Nat
  | 0, s => some s
  | k + 1, s =>
    match next N s with
    | some (_, s1) => iterateNext N k s1
    | none => none

/-- Apply `State::previous` to a cursor `k` times (discarding the returned
prior states), propagating a modelled panic. -/
def iteratePrev (N : Nat) : Nat → Nat → Option Nat
  | 0, s => some s
  | k + 1, s =>
    match previous N s with
    | some (_, s1) => iteratePrev N k s1
    | none => none

/-! Helper lemmas about the embedding. -/

theorem tryFrom_lt {N d : Nat} (h : d < N) : tryFrom N d = some d := by
  simp [tryFrom, h]

theorem next_lt {N s : Nat} (h : s < N) : next N s = some (s, (s + 1) % N) := by
  have hm : (s + 1) % N < N := Nat.mod_lt _ (by omega)
  simp [next, intoU8, tryFrom_lt hm]

theorem previous_lt {N s : Nat} (h : s < N) :
    previous N s = some (s, (if s = 0 then N else s) - 1) := by
  have hm : (if s = 0 then N else s) - 1 < N := by split <;> omega
  simp [previous, intoU8, tryFrom_lt hm]

theorem step_bounded {N i : Nat} (p : Nat) (h : i < N) :
    step N ⟨i, p, false, false⟩ =
      some (some i,
        ⟨(i + 1) % N, i, false, if i = N - 1 then true else false⟩) := by
  have he : endState N = some (N - 1) := tryFrom_lt (by omega)
  simp [step, flagFwd, he, next_lt h, intoU8]

theorem step_infinite {N i : Nat} (p : Nat) (h : i < N) :
    step N ⟨i, p, true, false⟩ = some (some i, ⟨(i + 1) % N, i, true, false⟩) := by
  simp [step, flagFwd, next_lt h, intoU8]

theorem stepBack_bounded {N i : Nat} (p : Nat) (h : i < N) :
    stepBack N ⟨i, p, false, false⟩ =
      some (some i,
        ⟨(if i = 0 then N else i) - 1, i, false, if i = 0 then true else false⟩) := by
  have hs : startState N = some 0 := tryFrom_lt (by omega)
  simp [stepBack, flagBwd, hs, previous_lt h, intoU8]

theorem collectFwd_stopped {N fuel : Nat} {it : StateIter} (h : it.done = true) :
    collectFwd N fuel it = some ([], it) := by
  cases fuel with
  | zero => simp [collectFwd]
  | succ fuel => simp [collectFwd, step, h]

theorem collectBwd_stopped {N fuel : Nat} {it : StateIter} (h : it.done = true) :
    collectBwd N fuel it = some ([], it) := by
  cases fuel with
  | zero => simp [collectBwd]
  | succ fuel => simp [collectBwd, stepBack, h]

/-- A bounded iterator sitting at index `i < N` drains forward to exactly the
states `i, i+1, …, N-1` and ends done, with the item wrapped to `0` and `pos`
at the last yielded index `N - 1`. -/
theorem collectFwd_once (N : Nat) :
    ∀ fuel i p, i < N → N - i ≤ fuel →
    collectFwd N fuel ⟨i, p, false, false⟩ =
      some (List.range' i (N - i), ⟨0, N - 1, false, true⟩) := by
  intro fuel
  induction fuel with
  | zero => intro i p hi hf; omega
  | succ fuel ih =>
    intro i p hi hf
    by_cases hend : i = N - 1
    · subst hend
      have h0 : (N - 1 + 1) % N = 0 := by
        have : N - 1 + 1 = N := by omega
        simp [this]
      simp only [collectFwd, step_bounded p hi, if_pos rfl, h0]
      rw [collectFwd_stopped rfl]
      have : N - (N - 1) = 1 := by omega
      simp [this, List.range']
    · have hlt : i + 1 < N := by omega
      have hmod : (i + 1) % N = i + 1 := Nat.mod_eq_of_lt hlt
      simp only [collectFwd, step_bounded p hi, if_neg hend, hmod]
      rw [ih (i + 1) i hlt (by omega)]
      have hsub : N - i = (N - (i + 1)) + 1 := by omega
      rw [hsub, List.range'_succ]

/-- A bounded iterator sitting at index `i < N` drains backward to exactly the
states `i, i-1, …, 0` and ends done, with the item wrapped to `N - 1` and
`pos` at the last yielded index `0`. -/
theorem collectBwd_once (N : Nat) :
    ∀ fuel i p, i < N → i + 1 ≤ fuel →
    collectBwd N fuel ⟨i, p, false, false⟩ =
      some ((List.range (i + 1)).reverse, ⟨N - 1, 0, false, true⟩) := by
  intro fuel
  induction fuel with
  | zero => intro i p hi hf; omega
  | succ fuel ih =>
    intro i p hi hf
    by_cases h0 : i = 0
    · subst h0
      simp only [collectBwd, stepBack_bounded p hi, if_pos rfl]
      rw [collectBwd_stopped rfl]
      simp
      decide
    · have hi1 : i - 1 < N := by omega
      have hif : (if i = 0 then N else i) - 1 = i - 1 := by simp [h0]
      simp only [collectBwd, stepBack_bounded p hi, if_neg h0, hif]
      rw [ih (i - 1) i hi1 (by omega)]
      have h11 : i - 1 + 1 = i := by omega
      rw [h11]
      simp [List.range_succ]

/-- An infinite iterator at index `s` run for `m = N - s` steps yields
`s, s+1, …, N-1`, wrapping its item back to `0` and never setting `done`. -/
theorem collectFwd_inf_run (N : Nat) :
    ∀ m s p, 0 < m → s + m = N →
    collectFwd N m ⟨s, p, true, false⟩ =
      some (List.range' s m, ⟨0, N - 1, true, false⟩) := by
  intro m
  induction m with
  | zero => intro s p hm hsum; omega
  | succ m ih =>
    intro s p hm hsum
    have hs : s < N := by omega
    by_cases hm0 : m = 0
    · subst hm0
      have h0 : (s + 1) % N = 0 := by
        have : s + 1 = N := by omega
        simp [this]
      simp only [collectFwd, step_infinite p hs, h0]
      have hlast : s = N - 1 := by omega
      simp [List.range', hlast]
    · have hlt : s + 1 < N := by omega
      have hmod : (s + 1) % N = s + 1 := Nat.mod_eq_of_lt hlt
      simp only [collectFwd, step_infinite p hs, hmod]
      rw [ih (s + 1) s (by omega) (by omega)]
      rw [List.range'_succ]

/-- Composition of drains: a full first run (no early stop, witnessed by the
yield count equalling the fuel) followed by a second run. -/
theorem collectFwd_add (N : Nat) :
    ∀ a b it xs it1, collectFwd N a it = some (xs, it1) → xs.length = a →
    collectFwd N (a + b) it =
      (collectFwd N b it1).map (fun r => (xs ++ r.1, r.2)) := by
  intro a
  induction a with
  | zero =>
    intro b it xs it1 h hlen
    simp only [collectFwd, Option.some.injEq, Prod.mk.injEq] at h
    obtain ⟨h1, h2⟩ := h
    subst h1
    rw [← h2]
    simp only [Nat.zero_add, List.nil_append]
    cases hb : collectFwd N b it with
    | none => simp [hb]
    | some r2 => obtain ⟨l, j⟩ := r2; simp [hb]
  | succ a ih =>
    intro b it xs it1 h hlen
    have hstep : a + 1 + b = (a + b) + 1 := by omega
    rw [hstep]
    cases hs : step N it with
    | none =>
      simp only [collectFwd, hs] at h
      exact Option.noConfusion h
    | some r =>
      obtain ⟨o, it'⟩ := r
      cases o with
      | none =>
        simp only [collectFwd, hs, Option.some.injEq, Prod.mk.injEq] at h
        obtain ⟨h1, h2⟩ := h
        subst h1
        simp at hlen
      | some x =>
        simp only [collectFwd, hs] at h ⊢
        cases hr : collectFwd N a it' with
        | none => rw [hr] at h; cases h
        | some r2 =>
          obtain ⟨xs', it2⟩ := r2
          rw [hr] at h
          simp only [Option.some.injEq, Prod.mk.injEq] at h
          obtain ⟨h1, h2⟩ := h
          subst h1
          rw [← h2]
          rw [ih b it' xs' it2 hr (by simpa using hlen)]
          cases hb : collectFwd N b it2 with
          | none => simp [hb]
          | some r3 => obtain ⟨l, j⟩ := r3; simp [hb]

/-- From `start()` the infinite iterator, run for `k * N` steps, produces the
full cycle `0, …, N-1` exactly `k` times and returns to item `0`. -/
theorem collectFwd_cycles (N : Nat) (hN : 0 < N) :
    ∀ k p, 0 < k →
    collectFwd N (k * N) ⟨0, p, true, false⟩ =
      some (List.flatten (List.replicate k (List.range N)), ⟨0, N - 1, true, false⟩) := by
  intro k
  induction k with
  | zero => intro p hk; omega
  | succ k ih =>
    intro p hk
    by_cases hk0 : k = 0
    · subst hk0
      have h1 : 1 * N = N := by omega
      rw [h1, collectFwd_inf_run N N 0 p hN (by omega)]
      simp [List.range_eq_range']
    · have hmul : (k + 1) * N = N + k * N := by ring
      rw [hmul]
      have hrun := collectFwd_inf_run N N 0 p hN (by omega)
      have hlen : (List.range' 0 N).length = N := by simp
      rw [collectFwd_add N N (k * N) _ _ _ hrun hlen]
      rw [ih (N - 1) (by omega)]
      simp [List.replicate_succ, List.range_eq_range']

/-- Closed form of `k` repeated `State::next` calls: the cursor moves to
`(s + k) mod N`. -/
theorem iterateNext_eq (N : Nat) :
    ∀ k s, s < N → iterateNext N k s = some ((s + k) % N) := by
  intro k
  induction k with
  | zero => intro s hs; simp [iterateNext, Nat.mod_eq_of_lt hs]
  | succ k ih =>
    intro s hs
    have hlt : (s + 1) % N < N := Nat.mod_lt _ (by omega)
    simp only [iterateNext, next_lt hs]
    rw [ih _ hlt, Nat.mod_add_mod]
    have harg : s + 1 + k = s + (k + 1) := by omega
    rw [harg]

/-- `State::previous` moves the cursor to `(s + (N - 1)) mod N`. -/
theorem previous_index_eq {N s : Nat} (h : s < N) :
    (if s = 0 then N else s) - 1 = (s + (N - 1)) % N := by
  by_cases h0 : s = 0
  · subst h0
    simp [Nat.mod_eq_of_lt (show N - 1 < N by omega)]
  · have : s + (N - 1) = (s - 1) + N := by omega
    rw [if_neg h0, this, Nat.add_mod_right, Nat.mod_eq_of_lt (by omega)]

/-- Closed form of `k` repeated `State::previous` calls: the cursor moves to
`(s + k * (N - 1)) mod N`. -/
theorem iteratePrev_eq (N : Nat) :
    ∀ k s, s < N → iteratePrev N k s = some ((s + k * (N - 1)) % N) := by
  intro k
  induction k with
  | zero => intro s hs; simp [iteratePrev, Nat.mod_eq_of_lt hs]
  | succ k ih =>
    intro s hs
    have hlt : (s + (N - 1)) % N < N := Nat.mod_lt _ (by omega)
    simp only [iteratePrev, previous_lt hs, previous_index_eq hs]
    rw [ih _ hlt, Nat.mod_add_mod]
    have harg : s + (N - 1) + k * (N - 1) = s + (k + 1) * (N - 1) := by
      rw [Nat.succ_mul]
      omega
    rw [harg]

/-- The `pos` field after a successful forward yield is the yielded index. -/
theorem step_pos {N x : Nat} {it it1 : StateIter}
    (h : step N it = some (some x, it1)) : it1.pos = x := by
  unfold step at h
  split at h
  · simp at h
  · cases hf : flagFwd N it with
    | none => rw [hf] at h; exact Option.noConfusion h
    | some d1 =>
      rw [hf] at h
      cases hn : next N it.item with
      | none => rw [hn] at h; exact Option.noConfusion h
      | some pr =>
        obtain ⟨prev, item1⟩ := pr
        rw [hn] at h
        simp only [Option.some.injEq, Prod.mk.injEq] at h
        obtain ⟨h1, h2⟩ := h
        rw [← h2]
        exact h1

/-- The `pos` field after a successful backward yield is the yielded index. -/
theorem stepBack_pos {N x : Nat} {it it1 : StateIter}
    (h : stepBack N it = some (some x, it1)) : it1.pos = x := by
  unfold stepBack at h
  split at h
  · simp at h
  · cases hf : flagBwd N it with
    | none => rw [hf] at h; exact Option.noConfusion h
    | some d1 =>
      rw [hf] at h
      cases hn : previous N it.item with
      | none => rw [hn] at h; exact Option.noConfusion h
      | some pr =>
        obtain ⟨prev, item1⟩ := pr
        rw [hn] at h
        simp only [Option.some.injEq, Prod.mk.injEq] at h
        obtain ⟨h1, h2⟩ := h
        rw [← h2]
        exact h1

/-! The claims. States of a `#[derive(State)]` enum are written as their
indices; in a five-variant enum `{A, B, C, D, E}` the variants are the
indices `0, 1, 2, 3, 4` in declaration order. -/

/-- C1, counterexample.  With `N = 5` and the cursor at `C` (index 2), the
bounded iterator drained forward does NOT yield `[D, E]` (`[3, 4]`), and the
bounded iterator created at `E` (index 4) drained in reverse does NOT yield
`[D, C, B, A]` (`[3, 2, 1, 0]`): the iterator yields the value returned by
`State::next`/`previous`, which is the state *before* advancing, so each run
begins with the creating state. -/
theorem c1_counterexample :
    (collectFwd 5 10 (into_iter_once 2)).map Prod.fst ≠ some [3, 4] ∧
    (collectBwd 5 10 (into_iter_once 4)).map Prod.fst ≠ some [3, 2, 1, 0] := by
  decide

/-- C1, amended.  With `N = 5` and the cursor at `C` (index 2), bounded
forward iteration yields exactly `[C, D, E]` (`[2, 3, 4]`) — the pre-advance
values, starting with the creating state — and the bounded iterator created
at `E` (index 4) iterated in reverse yields exactly `[E, D, C, B, A]`
(`[4, 3, 2, 1, 0]`). -/
theorem c1_bounded_example :
    (collectFwd 5 10 (into_iter_once 2)).map Prod.fst = some [2, 3, 4] ∧
    (collectBwd 5 10 (into_iter_once 4)).map Prod.fst = some [4, 3, 2, 1, 0] := by
  decide

/-- C2, counterexample.  With `N = 3`, the bounded iterator created at
`start()` and run in reverse yields only `[0]` — a single element, not the
`N` elements `[2, 1, 0]` in reverse order: `next_back` tests the item
against `start()` before advancing, so it is exhausted immediately. -/
theorem c2_counterexample :
    (collectBwd 3 10 (into_iter_once 0)).map Prod.fst = some [0] ∧
    (collectBwd 3 10 (into_iter_once 0)).map Prod.fst ≠ some [2, 1, 0] := by
  decide

/-- C2, amended.  For every `N ≥ 1`, the bounded iterator created at
`start()` drained forward yields exactly the `N` states in index order
`0, …, N-1`; the same construction run in reverse yields exactly the single
element `start()`; the `N` elements in reverse order are produced by a
bounded iterator created at `end()` and run in reverse. -/
theorem c2_full_cycle (N : Nat) (hN : 0 < N) :
    (collectFwd N (N + 1) (into_iter_once 0)).map Prod.fst = some (List.range N) ∧
    (collectBwd N (N + 1) (into_iter_once 0)).map Prod.fst = some [0] ∧
    (collectBwd N (N + 1) (into_iter_once (N - 1))).map Prod.fst =
      some ((List.range N).reverse) := by
  refine ⟨?_, ?_, ?_⟩
  · rw [show into_iter_once 0 = ⟨0, 0, false, false⟩ from rfl,
        collectFwd_once N (N + 1) 0 0 hN (by omega)]
    simp [List.range_eq_range']
  · rw [show into_iter_once 0 = ⟨0, 0, false, false⟩ from rfl,
        collectBwd_once N (N + 1) 0 0 hN (by omega)]
    rfl
  · have h1 : N - 1 < N := by omega
    rw [show into_iter_once (N - 1) = ⟨N - 1, N - 1, false, false⟩ from rfl,
        collectBwd_once N (N + 1) (N - 1) (N - 1) h1 (by omega)]
    have hN1 : N - 1 + 1 = N := by omega
    rw [hN1]
    rfl

/-- Witness for C2 at `N = 3`. -/
theorem c2_full_cycle_witness :
    0 < 3 ∧
    ((collectFwd 3 (3 + 1) (into_iter_once 0)).map Prod.fst = some (List.range 3) ∧
     (collectBwd 3 (3 + 1) (into_iter_once 0)).map Prod.fst = some [0] ∧
     (collectBwd 3 (3 + 1) (into_iter_once (3 - 1))).map Prod.fst =
       some ((List.range 3).reverse)) :=
  ⟨by decide, c2_full_cycle 3 (by decide)⟩

/-- C3.  For every state type with `N` states and every starting state of
index `i < N` (in particular every interior one), a fresh bounded iterator
drained forward yields exactly the `N - i` states `i, …, N-1` (to `end()`
inclusive), and an independent fresh bounded iterator drained backward
yields exactly the `i + 1` states `i, …, 0` (to `start()` inclusive). -/
theorem c3_bounded_counts (N i : Nat) (hi : i < N) :
    (collectFwd N (N + 1) (into_iter_once i)).map Prod.fst =
      some (List.range' i (N - i)) ∧
    (collectFwd N (N + 1) (into_iter_once i)).map (fun r => r.1.length) =
      some (N - i) ∧
    (collectBwd N (N + 1) (into_iter_once i)).map Prod.fst =
      some ((List.range (i + 1)).reverse) ∧
    (collectBwd N (N + 1) (into_iter_once i)).map (fun r => r.1.length) =
      some (i + 1) := by
  have hf := collectFwd_once N (N + 1) i i hi (by omega)
  have hb := collectBwd_once N (N + 1) i i hi (by omega)
  rw [show into_iter_once i = ⟨i, i, false, false⟩ from rfl] at *
  refine ⟨by rw [hf]; rfl, by rw [hf]; simp, by rw [hb]; rfl, by rw [hb]; simp⟩

/-- Witness for C3 at `N = 5`, `i = 2`. -/
theorem c3_bounded_counts_witness :
    2 < 5 ∧
    ((collectFwd 5 (5 + 1) (into_iter_once 2)).map Prod.fst =
       some (List.range' 2 (5 - 2)) ∧
     (collectFwd 5 (5 + 1) (into_iter_once 2)).map (fun r => r.1.length) =
       some (5 - 2) ∧
     (collectBwd 5 (5 + 1) (into_iter_once 2)).map Prod.fst =
       some ((List.range (2 + 1)).reverse) ∧
     (collectBwd 5 (5 + 1) (into_iter_once 2)).map (fun r => r.1.length) =
       some (2 + 1)) :=
  ⟨by decide, c3_bounded_counts 5 2 (by decide)⟩

/-- C4.  For every `N ≥ 1` and every cursor at index `s < N`, `State::next`
moves the cursor to index `(s + 1) % N` and returns the prior state; in
particular `start()` is index `0`, `end()` is index `N - 1`, and `next` on a
cursor at `end()` leaves the cursor at `start()`. -/
theorem c4_next_spec (N s : Nat) (h : s < N) :
    next N s = some (s, (s + 1) % N) ∧
    startState N = some 0 ∧ endState N = some (N - 1) ∧
    next N (N - 1) = some (N - 1, 0) := by
  have h1 : N - 1 < N := by omega
  refine ⟨next_lt h, tryFrom_lt (by omega), tryFrom_lt h1, ?_⟩
  rw [next_lt h1]
  have hw : (N - 1 + 1) % N = 0 := by
    have hN : N - 1 + 1 = N := by omega
    rw [hN, Nat.mod_self]
  rw [hw]

/-- Witness for C4 at `N = 5`, `s = 2`. -/
theorem c4_next_spec_witness :
    2 < 5 ∧
    (next 5 2 = some (2, (2 + 1) % 5) ∧
     startState 5 = some 0 ∧ endState 5 = some (5 - 1) ∧
     next 5 (5 - 1) = some (5 - 1, 0)) :=
  ⟨by decide, c4_next_spec 5 2 (by decide)⟩

/-- C5.  For every `N ≥ 1` and every cursor at index `s < N`,
`State::previous` moves the cursor to index `N - 1` when `s = 0` and to
`s - 1` otherwise, and returns the prior state; in particular `previous` on
a cursor at `start()` leaves the cursor at `end()`. -/
theorem c5_previous_spec (N s : Nat) (h : s < N) :
    previous N s = some (s, if s = 0 then N - 1 else s - 1) ∧
    startState N = some 0 ∧ endState N = some (N - 1) ∧
    previous N 0 = some (0, N - 1) := by
  have h0 : (0 : Nat) < N := by omega
  have e1 : (if s = 0 then N else s) - 1 = if s = 0 then N - 1 else s - 1 := by
    split <;> rfl
  refine ⟨by rw [previous_lt h, e1], tryFrom_lt h0, tryFrom_lt (by omega), ?_⟩
  rw [previous_lt h0]
  simp

/-- Witness for C5 at `N = 5`, `s = 0`. -/
theorem c5_previous_spec_witness :
    0 < 5 ∧
    (previous 5 0 = some (0, if 0 = 0 then 5 - 1 else 0 - 1) ∧
     startState 5 = some 0 ∧ endState 5 = some (5 - 1) ∧
     previous 5 0 = some (0, 5 - 1)) :=
  ⟨by decide, c5_previous_spec 5 0 (by decide)⟩

/-- C6.  For every cursor at index `s < N` and every `k ≥ 0`, applying
`State::next` `k` times and then `State::previous` `k` times returns the
cursor to its original state, and likewise in the other order. -/
theorem c6_round_trip (N s k : Nat) (h : s < N) :
    (iterateNext N k s).bind (iteratePrev N k) = some s ∧
    (iteratePrev N k s).bind (iterateNext N k) = some s := by
  have hN : 0 < N := by omega
  have hmul : ∀ m : Nat, m + m * (N - 1) = m * N := by
    intro m
    obtain ⟨n, rfl⟩ : ∃ n, N = n + 1 := ⟨N - 1, by omega⟩
    simp only [Nat.add_sub_cancel, Nat.mul_succ]
    omega
  constructor
  · rw [iterateNext_eq N k s h, Option.some_bind,
        iteratePrev_eq N k _ (Nat.mod_lt _ hN), Nat.mod_add_mod]
    have harg : s + k + k * (N - 1) = s + k * N := by
      have := hmul k
      omega
    rw [harg, Nat.add_mul_mod_self_right, Nat.mod_eq_of_lt h]
  · rw [iteratePrev_eq N k s h, Option.some_bind,
        iterateNext_eq N k _ (Nat.mod_lt _ hN), Nat.mod_add_mod]
    have harg : s + k * (N - 1) + k = s + k * N := by
      have := hmul k
      omega
    rw [harg, Nat.add_mul_mod_self_right, Nat.mod_eq_of_lt h]

/-- Witness for C6 at `N = 5`, `s = 2`, `k = 7`. -/
theorem c6_round_trip_witness :
    2 < 5 ∧
    ((iterateNext 5 7 2).bind (iteratePrev 5 7) = some 2 ∧
     (iteratePrev 5 7 2).bind (iterateNext 5 7) = some 2) :=
  ⟨by decide, c6_round_trip 5 2 7 (by decide)⟩

/-- C7.  For every `N ≥ 1` and `k ≥ 1`, taking exactly `k * N` elements from
the infinite iterator created at `start()` yields the full cycle
`0, …, N-1` repeated `k` times; moreover an active infinite iterator (any
in-range item, `done = false`) always yields an element, never sets `done`,
and keeps its item in range, so it never stops producing elements. -/
theorem c7_infinite_cycles (N k i p : Nat) (hN : 0 < N) (hk : 0 < k)
    (hi : i < N) :
    (collectFwd N (k * N) (into_iter 0)).map Prod.fst =
      some (List.flatten (List.replicate k (List.range N))) ∧
    step N ⟨i, p, true, false⟩ = some (some i, ⟨(i + 1) % N, i, true, false⟩) ∧
    (i + 1) % N < N := by
  refine ⟨?_, step_infinite p hi, Nat.mod_lt _ (by omega)⟩
  rw [show into_iter 0 = ⟨0, 0, true, false⟩ from rfl,
      collectFwd_cycles N hN k 0 hk]
  rfl

/-- Witness for C7 at `N = 2`, `k = 2`, `i = 0`, `p = 0`. -/
theorem c7_infinite_cycles_witness :
    0 < 2 ∧ 0 < 2 ∧ 0 < 2 ∧
    ((collectFwd 2 (2 * 2) (into_iter 0)).map Prod.fst =
       some (List.flatten (List.replicate 2 (List.range 2))) ∧
     step 2 ⟨0, 0, true, false⟩ = some (some 0, ⟨(0 + 1) % 2, 0, true, false⟩) ∧
     (0 + 1) % 2 < 2) :=
  ⟨by decide, by decide, by decide,
   c7_infinite_cycles 2 2 0 0 (by decide) (by decide) (by decide)⟩

/-- C8.  The single `done` flag is shared by both directions: once it is
set — by whichever direction exhausted the run — both `Iterator::next` and
`next_back` return `None` and leave the iterator (in particular its item)
unchanged, so every subsequent call in either direction yields nothing. -/
theorem c8_done_halts (N : Nat) (it : StateIter) (h : it.done = true) :
    step N it = some (none, it) ∧ stepBack N it = some (none, it) := by
  exact ⟨by simp [step, h], by simp [stepBack, h]⟩

/-- Witness for C8 at `N = 5` on a finished bounded iterator. -/
theorem c8_done_halts_witness :
    (StateIter.mk 0 4 false true).done = true ∧
    (step 5 (StateIter.mk 0 4 false true) = some (none, StateIter.mk 0 4 false true) ∧
     stepBack 5 (StateIter.mk 0 4 false true) =
       some (none, StateIter.mk 0 4 false true)) :=
  ⟨by decide, c8_done_halts 5 (StateIter.mk 0 4 false true) (by decide)⟩

/-- C9.  The only failure mode is the index-to-state lookup: the generated
`TryFrom<u8>` succeeds exactly on indices in `[0, N)` and returns the
"no such state" error value (`Err(())`, here `none`) otherwise; `next`,
`previous` and `goto` are total on valid state values — their internal
lookups always receive an in-range index, so they cannot fail. -/
theorem c9_error_handling (N s d t : Nat) (h : s < N) :
    ((tryFrom N d).isSome ↔ d < N) ∧
    (tryFrom N d = none ↔ N ≤ d) ∧
    (next N s).isSome ∧ (previous N s).isSome ∧ goto s t = (s, t) := by
  refine ⟨?_, ?_, ?_, ?_, rfl⟩
  · by_cases hd : d < N <;> simp [tryFrom, hd]
  · by_cases hd : d < N
    · simp [tryFrom, hd]
    · simp [tryFrom, hd]
      omega
  · simp [next_lt h]
  · simp [previous_lt h]

/-- Witness for C9 at `N = 5`, `s = 2`, `d = 7`, `t = 1`. -/
theorem c9_error_handling_witness :
    2 < 5 ∧
    (((tryFrom 5 7).isSome ↔ 7 < 5) ∧
     (tryFrom 5 7 = none ↔ 5 ≤ 7) ∧
     (next 5 2).isSome ∧ (previous 5 2).isSome ∧ goto 2 1 = (2, 1)) :=
  ⟨by decide, c9_error_handling 5 2 7 1 (by decide)⟩

/-- C10.  `size_hint` returns `(pos, Some(N))` where `pos` is the starting
state's index before the first yield and, after any successful yield in
either direction, the index of the most recently yielded element; the
`ExactSizeIterator` impl is an empty marker on top of this `size_hint`.
The bounds do not equal the number of remaining elements (at `N = 3` from
`start()` the lower bound is `0` while `3` elements remain), and the
infinite iterator reports the same finite upper bound `Some(N)`. -/
theorem c10_size_hint_spec (N s x y : Nat) (it jt it1 jt1 : StateIter)
    (hstep : step N it = some (some x, it1))
    (hback : stepBack N jt = some (some y, jt1)) :
    size_hint N (into_iter_once s) = (s, some N) ∧
    size_hint N (into_iter s) = (s, some N) ∧
    size_hint N it1 = (x, some N) ∧
    size_hint N jt1 = (y, some N) ∧
    (size_hint 3 (into_iter_once 0)).1 = 0 ∧
    (collectFwd 3 4 (into_iter_once 0)).map (fun r => r.1.length) = some 3 ∧
    (0 : Nat) ≠ 3 ∧
    (size_hint N (into_iter s)).2 = some N := by
  refine ⟨rfl, rfl, ?_, ?_, rfl, by decide, by decide, rfl⟩
  · rw [size_hint, step_pos hstep]
  · rw [size_hint, stepBack_pos hback]

/-- Witness for C10 at `N = 3` with one forward and one backward yield from
the bounded iterator at `start()`. -/
theorem c10_size_hint_spec_witness :
    step 3 (into_iter_once 0) = some (some 0, StateIter.mk 1 0 false false) ∧
    stepBack 3 (into_iter_once 0) = some (some 0, StateIter.mk 2 0 false true) ∧
    (size_hint 3 (into_iter_once 1) = (1, some 3) ∧
     size_hint 3 (into_iter 1) = (1, some 3) ∧
     size_hint 3 (StateIter.mk 1 0 false false) = (0, some 3) ∧
     size_hint 3 (StateIter.mk 2 0 false true) = (0, some 3) ∧
     (size_hint 3 (into_iter_once 0)).1 = 0 ∧
     (collectFwd 3 4 (into_iter_once 0)).map (fun r => r.1.length) = some 3 ∧
     (0 : Nat) ≠ 3 ∧
     (size_hint 3 (into_iter 1)).2 = some 3) :=
  ⟨by decide, by decide,
   c10_size_hint_spec 3 1 0 0 (into_iter_once 0) (into_iter_once 0)
     (StateIter.mk 1 0 false false) (StateIter.mk 2 0 false true)
     (by decide) (by decide)⟩

end Fsm
